/-
Verification development for the SMT-COMP submission/benchmark schema module
(smtcomp/defs.py): taxonomy enumerations and table, participation merging,
submission validation, the Smt2File path codec, and the regex logic selector.
-/
import Mathlib

/-- The `SolverType` enumeration of the source, in declaration order. -/
inductive SolverType where
  | wrapped
  | derived
  | standalone
deriving DecidableEq, Fintype, Repr

/-- Canonical string of each `SolverType` member (its value in the source). -/
def SolverType.name : SolverType → String
  | .wrapped => "wrapped"
  | .derived => "derived"
  | .standalone => "Standalone"

/-- The `Status` enumeration of the source, in declaration order. -/
inductive Status where
  | Unsat
  | Sat
  | Unknown
deriving DecidableEq, Fintype, Repr

/-- Canonical string of each `Status` member (its value in the source). -/
def Status.name : Status → String
  | .Unsat => "unsat"
  | .Sat => "sat"
  | .Unknown => "unknown"

/-- The `Track` enumeration of the source, in declaration order. -/
inductive Track where
  | UnsatCore
  | SingleQuery
  | ProofExhibition
  | ModelValidation
  | Incremental
  | Cloud
  | Parallel
deriving DecidableEq, Fintype, Repr

/-- Canonical string of each `Track` member (its value in the source). -/
def Track.name : Track → String
  | .UnsatCore => "UnsatCore"
  | .SingleQuery => "SingleQuery"
  | .ProofExhibition => "ProofExhibition"
  | .ModelValidation => "ModelValidation"
  | .Incremental => "Incremental"
  | .Cloud => "Cloud"
  | .Parallel => "Parallel"

/-- The `Division` enumeration of the source, in declaration order. -/
inductive Division where
  | Arith
  | Bitvec
  | Equality
  | Equality_LinearArith
  | Equality_MachineArith
  | Equality_NonLinearArith
  | FPArith
  | QF_ADT_BitVec
  | QF_ADT_LinArith
  | QF_Bitvec
  | QF_Datatypes
  | QF_Equality
  | QF_Equality_Bitvec
  | QF_Equality_Bitvec_Arith
  | QF_Equality_LinearArith
  | QF_Equality_NonLinearArith
  | QF_FPArith
  | QF_LinearIntArith
  | QF_LinearRealArith
  | QF_NonLinearIntArith
  | QF_NonLinearRealArith
  | QF_Strings
deriving DecidableEq, Fintype, Repr

/-- Canonical string of each `Division` member (its value in the source). -/
def Division.name : Division → String
  | .Arith => "Arith"
  | .Bitvec => "Bitvec"
  | .Equality => "Equality"
  | .Equality_LinearArith => "Equality+LinearArith"
  | .Equality_MachineArith => "Equality+MachineArith"
  | .Equality_NonLinearArith => "Equality+NonLinearArith"
  | .FPArith => "FPArith"
  | .QF_ADT_BitVec => "QF_ADT+BitVec"
  | .QF_ADT_LinArith => "QF_ADT+LinArith"
  | .QF_Bitvec => "QF_Bitvec"
  | .QF_Datatypes => "QF_Datatypes"
  | .QF_Equality => "QF_Equality"
  | .QF_Equality_Bitvec => "QF_Equality+Bitvec"
  | .QF_Equality_Bitvec_Arith => "QF_Equality+Bitvec+Arith"
  | .QF_Equality_LinearArith => "QF_Equality+LinearArith"
  | .QF_Equality_NonLinearArith => "QF_Equality+NonLinearArith"
  | .QF_FPArith => "QF_FPArith"
  | .QF_LinearIntArith => "QF_LinearIntArith"
  | .QF_LinearRealArith => "QF_LinearRealArith"
  | .QF_NonLinearIntArith => "QF_NonLinearIntArith"
  | .QF_NonLinearRealArith => "QF_NonLinearRealArith"
  | .QF_Strings => "QF_Strings"

set_option maxHeartbeats 2000000 in
/-- The `Logic` enumeration of the source, in declaration order. -/
inductive Logic where
  | ABV
  | ABVFP
  | ABVFPLRA
  | ALIA
  | ANIA
  | AUFBV
  | AUFBVDTLIA
  | AUFBVDTNIA
  | AUFBVDTNIRA
  | AUFBVFP
  | AUFDTLIA
  | AUFDTLIRA
  | AUFDTNIRA
  | AUFFPDTNIRA
  | AUFLIA
  | AUFLIRA
  | AUFNIA
  | AUFNIRA
  | BV
  | BVFP
  | BVFPLRA
  | FP
  | FPLRA
  | LIA
  | LRA
  | NIA
  | NRA
  | QF_ABV
  | QF_ABVFP
  | QF_ABVFPLRA
  | QF_ALIA
  | QF_ANIA
  | QF_AUFBV
  | QF_AUFBVFP
  | QF_AUFBVLIA
  | QF_AUFBVNIA
  | QF_AUFLIA
  | QF_AUFNIA
  | QF_AX
  | QF_BV
  | QF_BVFP
  | QF_BVFPLRA
  | QF_BVLRA
  | QF_DT
  | QF_FP
  | QF_FPLRA
  | QF_IDL
  | QF_LIA
  | QF_LIRA
  | QF_LRA
  | QF_NIA
  | QF_NIRA
  | QF_NRA
  | QF_RDL
  | QF_S
  | QF_SLIA
  | QF_SNIA
  | QF_UF
  | QF_UFBV
  | QF_UFBVDT
  | QF_UFBVLIA
  | QF_UFDT
  | QF_UFDTLIA
  | QF_UFDTLIRA
  | QF_UFDTNIA
  | QF_UFFP
  | QF_UFFPDTNIRA
  | QF_UFIDL
  | QF_UFLIA
  | QF_UFLRA
  | QF_UFNIA
  | QF_UFNRA
  | UF
  | UFBV
  | UFBVDT
  | UFBVFP
  | UFBVLIA
  | UFDT
  | UFDTLIA
  | UFDTLIRA
  | UFDTNIA
  | UFDTNIRA
  | UFFPDTNIRA
  | UFIDL
  | UFLIA
  | UFLRA
  | UFNIA
  | UFNIRA
  | UFNRA
deriving DecidableEq, Fintype, Repr

/-- Canonical string of each `Logic` member (its value in the source). -/
def Logic.name : Logic → String
  | .ABV => "ABV"
  | .ABVFP => "ABVFP"
  | .ABVFPLRA => "ABVFPLRA"
  | .ALIA => "ALIA"
  | .ANIA => "ANIA"
  | .AUFBV => "AUFBV"
  | .AUFBVDTLIA => "AUFBVDTLIA"
  | .AUFBVDTNIA => "AUFBVDTNIA"
  | .AUFBVDTNIRA => "AUFBVDTNIRA"
  | .AUFBVFP => "AUFBVFP"
  | .AUFDTLIA => "AUFDTLIA"
  | .AUFDTLIRA => "AUFDTLIRA"
  | .AUFDTNIRA => "AUFDTNIRA"
  | .AUFFPDTNIRA => "AUFFPDTNIRA"
  | .AUFLIA => "AUFLIA"
  | .AUFLIRA => "AUFLIRA"
  | .AUFNIA => "AUFNIA"
  | .AUFNIRA => "AUFNIRA"
  | .BV => "BV"
  | .BVFP => "BVFP"
  | .BVFPLRA => "BVFPLRA"
  | .FP => "FP"
  | .FPLRA => "FPLRA"
  | .LIA => "LIA"
  | .LRA => "LRA"
  | .NIA => "NIA"
  | .NRA => "NRA"
  | .QF_ABV => "QF_ABV"
  | .QF_ABVFP => "QF_ABVFP"
  | .QF_ABVFPLRA => "QF_ABVFPLRA"
  | .QF_ALIA => "QF_ALIA"
  | .QF_ANIA => "QF_ANIA"
  | .QF_AUFBV => "QF_AUFBV"
  | .QF_AUFBVFP => "QF_AUFBVFP"
  | .QF_AUFBVLIA => "QF_AUFBVLIA"
  | .QF_AUFBVNIA => "QF_AUFBVNIA"
  | .QF_AUFLIA => "QF_AUFLIA"
  | .QF_AUFNIA => "QF_AUFNIA"
  | .QF_AX => "QF_AX"
  | .QF_BV => "QF_BV"
  | .QF_BVFP => "QF_BVFP"
  | .QF_BVFPLRA => "QF_BVFPLRA"
  | .QF_BVLRA => "QF_BVLRA"
  | .QF_DT => "QF_DT"
  | .QF_FP => "QF_FP"
  | .QF_FPLRA => "QF_FPLRA"
  | .QF_IDL => "QF_IDL"
  | .QF_LIA => "QF_LIA"
  | .QF_LIRA => "QF_LIRA"
  | .QF_LRA => "QF_LRA"
  | .QF_NIA => "QF_NIA"
  | .QF_NIRA => "QF_NIRA"
  | .QF_NRA => "QF_NRA"
  | .QF_RDL => "QF_RDL"
  | .QF_S => "QF_S"
  | .QF_SLIA => "QF_SLIA"
  | .QF_SNIA => "QF_SNIA"
  | .QF_UF => "QF_UF"
  | .QF_UFBV => "QF_UFBV"
  | .QF_UFBVDT => "QF_UFBVDT"
  | .QF_UFBVLIA => "QF_UFBVLIA"
  | .QF_UFDT => "QF_UFDT"
  | .QF_UFDTLIA => "QF_UFDTLIA"
  | .QF_UFDTLIRA => "QF_UFDTLIRA"
  | .QF_UFDTNIA => "QF_UFDTNIA"
  | .QF_UFFP => "QF_UFFP"
  | .QF_UFFPDTNIRA => "QF_UFFPDTNIRA"
  | .QF_UFIDL => "QF_UFIDL"
  | .QF_UFLIA => "QF_UFLIA"
  | .QF_UFLRA => "QF_UFLRA"
  | .QF_UFNIA => "QF_UFNIA"
  | .QF_UFNRA => "QF_UFNRA"
  | .UF => "UF"
  | .UFBV => "UFBV"
  | .UFBVDT => "UFBVDT"
  | .UFBVFP => "UFBVFP"
  | .UFBVLIA => "UFBVLIA"
  | .UFDT => "UFDT"
  | .UFDTLIA => "UFDTLIA"
  | .UFDTLIRA => "UFDTLIRA"
  | .UFDTNIA => "UFDTNIA"
  | .UFDTNIRA => "UFDTNIRA"
  | .UFFPDTNIRA => "UFFPDTNIRA"
  | .UFIDL => "UFIDL"
  | .UFLIA => "UFLIA"
  | .UFLRA => "UFLRA"
  | .UFNIA => "UFNIA"
  | .UFNIRA => "UFNIRA"
  | .UFNRA => "UFNRA"

/-- Enum lookup `Logic(s)`: the member whose value is `s`, if any. -/
def Logic.ofString : String → Option Logic
  | "ABV" => some .ABV
  | "ABVFP" => some .ABVFP
  | "ABVFPLRA" => some .ABVFPLRA
  | "ALIA" => some .ALIA
  | "ANIA" => some .ANIA
  | "AUFBV" => some .AUFBV
  | "AUFBVDTLIA" => some .AUFBVDTLIA
  | "AUFBVDTNIA" => some .AUFBVDTNIA
  | "AUFBVDTNIRA" => some .AUFBVDTNIRA
  | "AUFBVFP" => some .AUFBVFP
  | "AUFDTLIA" => some .AUFDTLIA
  | "AUFDTLIRA" => some .AUFDTLIRA
  | "AUFDTNIRA" => some .AUFDTNIRA
  | "AUFFPDTNIRA" => some .AUFFPDTNIRA
  | "AUFLIA" => some .AUFLIA
  | "AUFLIRA" => some .AUFLIRA
  | "AUFNIA" => some .AUFNIA
  | "AUFNIRA" => some .AUFNIRA
  | "BV" => some .BV
  | "BVFP" => some .BVFP
  | "BVFPLRA" => some .BVFPLRA
  | "FP" => some .FP
  | "FPLRA" => some .FPLRA
  | "LIA" => some .LIA
  | "LRA" => some .LRA
  | "NIA" => some .NIA
  | "NRA" => some .NRA
  | "QF_ABV" => some .QF_ABV
  | "QF_ABVFP" => some .QF_ABVFP
  | "QF_ABVFPLRA" => some .QF_ABVFPLRA
  | "QF_ALIA" => some .QF_ALIA
  | "QF_ANIA" => some .QF_ANIA
  | "QF_AUFBV" => some .QF_AUFBV
  | "QF_AUFBVFP" => some .QF_AUFBVFP
  | "QF_AUFBVLIA" => some .QF_AUFBVLIA
  | "QF_AUFBVNIA" => some .QF_AUFBVNIA
  | "QF_AUFLIA" => some .QF_AUFLIA
  | "QF_AUFNIA" => some .QF_AUFNIA
  | "QF_AX" => some .QF_AX
  | "QF_BV" => some .QF_BV
  | "QF_BVFP" => some .QF_BVFP
  | "QF_BVFPLRA" => some .QF_BVFPLRA
  | "QF_BVLRA" => some .QF_BVLRA
  | "QF_DT" => some .QF_DT
  | "QF_FP" => some .QF_FP
  | "QF_FPLRA" => some .QF_FPLRA
  | "QF_IDL" => some .QF_IDL
  | "QF_LIA" => some .QF_LIA
  | "QF_LIRA" => some .QF_LIRA
  | "QF_LRA" => some .QF_LRA
  | "QF_NIA" => some .QF_NIA
  | "QF_NIRA" => some .QF_NIRA
  | "QF_NRA" => some .QF_NRA
  | "QF_RDL" => some .QF_RDL
  | "QF_S" => some .QF_S
  | "QF_SLIA" => some .QF_SLIA
  | "QF_SNIA" => some .QF_SNIA
  | "QF_UF" => some .QF_UF
  | "QF_UFBV" => some .QF_UFBV
  | "QF_UFBVDT" => some .QF_UFBVDT
  | "QF_UFBVLIA" => some .QF_UFBVLIA
  | "QF_UFDT" => some .QF_UFDT
  | "QF_UFDTLIA" => some .QF_UFDTLIA
  | "QF_UFDTLIRA" => some .QF_UFDTLIRA
  | "QF_UFDTNIA" => some .QF_UFDTNIA
  | "QF_UFFP" => some .QF_UFFP
  | "QF_UFFPDTNIRA" => some .QF_UFFPDTNIRA
  | "QF_UFIDL" => some .QF_UFIDL
  | "QF_UFLIA" => some .QF_UFLIA
  | "QF_UFLRA" => some .QF_UFLRA
  | "QF_UFNIA" => some .QF_UFNIA
  | "QF_UFNRA" => some .QF_UFNRA
  | "UF" => some .UF
  | "UFBV" => some .UFBV
  | "UFBVDT" => some .UFBVDT
  | "UFBVFP" => some .UFBVFP
  | "UFBVLIA" => some .UFBVLIA
  | "UFDT" => some .UFDT
  | "UFDTLIA" => some .UFDTLIA
  | "UFDTLIRA" => some .UFDTLIRA
  | "UFDTNIA" => some .UFDTNIA
  | "UFDTNIRA" => some .UFDTNIRA
  | "UFFPDTNIRA" => some .UFFPDTNIRA
  | "UFIDL" => some .UFIDL
  | "UFLIA" => some .UFLIA
  | "UFLRA" => some .UFLRA
  | "UFNIA" => some .UFNIA
  | "UFNIRA" => some .UFNIRA
  | "UFNRA" => some .UFNRA
  | _ => none

set_option maxHeartbeats 2000000 in
/-- All `Logic` members in declaration order (iteration order of the Python enum). -/
def Logic.all : List Logic := [
  .ABV, .ABVFP, .ABVFPLRA, .ALIA, .ANIA, .AUFBV, .AUFBVDTLIA, .AUFBVDTNIA, .AUFBVDTNIRA,
  .AUFBVFP, .AUFDTLIA, .AUFDTLIRA, .AUFDTNIRA, .AUFFPDTNIRA, .AUFLIA, .AUFLIRA, .AUFNIA,
  .AUFNIRA, .BV, .BVFP, .BVFPLRA, .FP, .FPLRA, .LIA, .LRA, .NIA, .NRA, .QF_ABV, .QF_ABVFP,
  .QF_ABVFPLRA, .QF_ALIA, .QF_ANIA, .QF_AUFBV, .QF_AUFBVFP, .QF_AUFBVLIA, .QF_AUFBVNIA,
  .QF_AUFLIA, .QF_AUFNIA, .QF_AX, .QF_BV, .QF_BVFP, .QF_BVFPLRA, .QF_BVLRA, .QF_DT, .QF_FP,
  .QF_FPLRA, .QF_IDL, .QF_LIA, .QF_LIRA, .QF_LRA, .QF_NIA, .QF_NIRA, .QF_NRA, .QF_RDL,
  .QF_S, .QF_SLIA, .QF_SNIA, .QF_UF, .QF_UFBV, .QF_UFBVDT, .QF_UFBVLIA, .QF_UFDT,
  .QF_UFDTLIA, .QF_UFDTLIRA, .QF_UFDTNIA, .QF_UFFP, .QF_UFFPDTNIRA, .QF_UFIDL, .QF_UFLIA,
  .QF_UFLRA, .QF_UFNIA, .QF_UFNRA, .UF, .UFBV, .UFBVDT, .UFBVFP, .UFBVLIA, .UFDT, .UFDTLIA,
  .UFDTLIRA, .UFDTNIA, .UFDTNIRA, .UFFPDTNIRA, .UFIDL, .UFLIA, .UFLRA, .UFNIA, .UFNIRA,
  .UFNRA
]

/-- Entries of `tracks[Track.SingleQuery]`, in the insertion order of the source dict. -/
def tracksSingleQuery : List (Division × List Logic) := [
  (Division.QF_Datatypes, [.QF_DT, .QF_UFDT]),
  (Division.QF_Equality, [.QF_AX, .QF_UF]),
  (Division.QF_Equality_LinearArith, [.QF_ALIA, .QF_AUFLIA, .QF_UFDTLIA, .QF_UFDTLIRA, .QF_UFIDL, .QF_UFLIA, .QF_UFLRA]),
  (Division.QF_Equality_NonLinearArith, [.QF_ANIA, .QF_AUFNIA, .QF_UFDTNIA, .QF_UFNIA, .QF_UFNRA]),
  (Division.QF_Equality_Bitvec, [.QF_ABV, .QF_AUFBV, .QF_UFBV, .QF_UFBVDT]),
  (Division.QF_LinearIntArith, [.QF_IDL, .QF_LIA, .QF_LIRA]),
  (Division.QF_LinearRealArith, [.QF_LRA, .QF_RDL]),
  (Division.QF_Bitvec, [.QF_BV]),
  (Division.QF_FPArith, [.QF_ABVFP, .QF_ABVFPLRA, .QF_AUFBVFP, .QF_BVFP, .QF_BVFPLRA, .QF_FP, .QF_FPLRA, .QF_UFFP, .QF_UFFPDTNIRA]),
  (Division.QF_NonLinearIntArith, [.QF_NIA, .QF_NIRA]),
  (Division.QF_NonLinearRealArith, [.QF_NRA]),
  (Division.QF_Strings, [.QF_S, .QF_SLIA, .QF_SNIA]),
  (Division.Equality, [.UF, .UFDT]),
  (Division.Equality_LinearArith, [.ALIA, .AUFDTLIA, .AUFDTLIRA, .AUFLIA, .AUFLIRA, .UFDTLIA, .UFDTLIRA, .UFIDL, .UFLIA, .UFLRA]),
  (Division.Equality_MachineArith, [.ABV, .ABVFP, .ABVFPLRA, .AUFBV, .AUFBVDTLIA, .AUFBVDTNIA, .AUFBVDTNIRA, .AUFBVFP, .AUFFPDTNIRA, .UFBV, .UFBVDT, .UFBVFP, .UFBVLIA, .UFFPDTNIRA]),
  (Division.Equality_NonLinearArith, [.ANIA, .AUFDTNIRA, .AUFNIA, .AUFNIRA, .UFDTNIA, .UFDTNIRA, .UFNIA]),
  (Division.Arith, [.LIA, .LRA, .NIA, .NRA]),
  (Division.Bitvec, [.BV]),
  (Division.FPArith, [.BVFP, .BVFPLRA, .FP, .FPLRA])
]

/-- Entries of `tracks[Track.Incremental]`, in the insertion order of the source dict. -/
def tracksIncremental : List (Division × List Logic) := [
  (Division.QF_Equality, [.QF_UF]),
  (Division.QF_Equality_LinearArith, [.QF_ALIA, .QF_AUFLIA, .QF_UFLIA, .QF_UFLRA]),
  (Division.QF_Equality_NonLinearArith, [.QF_ANIA, .QF_UFNIA, .QF_UFNRA]),
  (Division.QF_Equality_Bitvec, [.QF_ABV, .QF_AUFBV, .QF_UFBV]),
  (Division.QF_Equality_Bitvec_Arith, [.QF_AUFBVLIA, .QF_AUFBVNIA, .QF_UFBVLIA]),
  (Division.QF_LinearIntArith, [.QF_LIA]),
  (Division.QF_LinearRealArith, [.QF_LRA]),
  (Division.QF_Bitvec, [.QF_BV]),
  (Division.QF_FPArith, [.QF_ABVFP, .QF_ABVFPLRA, .QF_BVFP, .QF_BVFPLRA, .QF_FP, .QF_UFFP]),
  (Division.QF_NonLinearIntArith, [.QF_NIA]),
  (Division.Equality, [.UF]),
  (Division.Equality_LinearArith, [.ALIA, .UFLRA]),
  (Division.Equality_MachineArith, [.ABVFPLRA]),
  (Division.Equality_NonLinearArith, [.ANIA, .AUFNIRA, .UFDTNIA, .UFNIA, .UFNRA]),
  (Division.Arith, [.LIA, .LRA]),
  (Division.Bitvec, [.BV]),
  (Division.FPArith, [.BVFP, .BVFPLRA])
]

/-- Entries of `tracks[Track.UnsatCore]`, in the insertion order of the source dict. -/
def tracksUnsatCore : List (Division × List Logic) := [
  (Division.QF_Datatypes, [.QF_DT, .QF_UFDT]),
  (Division.QF_Equality, [.QF_AX, .QF_UF]),
  (Division.QF_Equality_LinearArith, [.QF_ALIA, .QF_AUFLIA, .QF_UFDTLIA, .QF_UFDTLIRA, .QF_UFIDL, .QF_UFLIA, .QF_UFLRA]),
  (Division.QF_Equality_NonLinearArith, [.QF_ANIA, .QF_AUFNIA, .QF_UFDTNIA, .QF_UFNIA, .QF_UFNRA]),
  (Division.QF_Equality_Bitvec, [.QF_ABV, .QF_AUFBV, .QF_UFBV, .QF_UFBVDT]),
  (Division.QF_LinearIntArith, [.QF_IDL, .QF_LIA, .QF_LIRA]),
  (Division.QF_LinearRealArith, [.QF_LRA, .QF_RDL]),
  (Division.QF_Bitvec, [.QF_BV]),
  (Division.QF_FPArith, [.QF_ABVFP, .QF_ABVFPLRA, .QF_AUFBVFP, .QF_BVFP, .QF_BVFPLRA, .QF_FP, .QF_FPLRA, .QF_UFFP, .QF_UFFPDTNIRA]),
  (Division.QF_NonLinearIntArith, [.QF_NIA, .QF_NIRA]),
  (Division.QF_NonLinearRealArith, [.QF_NRA]),
  (Division.QF_Strings, [.QF_S, .QF_SLIA, .QF_SNIA]),
  (Division.Equality, [.UF, .UFDT]),
  (Division.Equality_LinearArith, [.ALIA, .AUFDTLIA, .AUFDTLIRA, .AUFLIA, .AUFLIRA, .UFDTLIA, .UFDTLIRA, .UFIDL, .UFLIA, .UFLRA]),
  (Division.Equality_MachineArith, [.ABV, .ABVFP, .ABVFPLRA, .AUFBV, .AUFBVDTLIA, .AUFBVDTNIA, .AUFBVDTNIRA, .AUFBVFP, .AUFFPDTNIRA, .UFBV, .UFBVDT, .UFBVFP, .UFBVLIA, .UFFPDTNIRA]),
  (Division.Equality_NonLinearArith, [.ANIA, .AUFDTNIRA, .AUFNIA, .AUFNIRA, .UFDTNIA, .UFDTNIRA, .UFNIA]),
  (Division.Arith, [.LIA, .LRA, .NIA, .NRA]),
  (Division.Bitvec, [.BV]),
  (Division.FPArith, [.BVFP, .BVFPLRA, .FP, .FPLRA])
]

/-- Entries of `tracks[Track.ModelValidation]`, in the insertion order of the source dict. -/
def tracksModelValidation : List (Division × List Logic) := [
  (Division.QF_Datatypes, [.QF_DT, .QF_UFDT]),
  (Division.QF_Equality, [.QF_UF]),
  (Division.QF_Equality_LinearArith, [.QF_UFIDL, .QF_UFLIA, .QF_UFLRA]),
  (Division.QF_Equality_NonLinearArith, [.QF_ANIA, .QF_AUFNIA, .QF_UFDTNIA, .QF_UFNIA, .QF_UFNRA]),
  (Division.QF_Equality_Bitvec, [.QF_UFBV]),
  (Division.QF_ADT_BitVec, [.QF_ABV, .QF_AUFBV, .QF_UFBVDT]),
  (Division.QF_ADT_LinArith, [.QF_ALIA, .QF_AUFLIA, .QF_AX, .QF_UFDTLIA, .QF_UFDTLIRA]),
  (Division.QF_LinearIntArith, [.QF_IDL, .QF_LIA, .QF_LIRA]),
  (Division.QF_LinearRealArith, [.QF_LRA, .QF_RDL]),
  (Division.QF_Bitvec, [.QF_BV]),
  (Division.QF_FPArith, [.QF_ABVFP, .QF_ABVFPLRA, .QF_AUFBVFP, .QF_BVFP, .QF_BVFPLRA, .QF_FP, .QF_FPLRA, .QF_UFFP, .QF_UFFPDTNIRA]),
  (Division.QF_NonLinearIntArith, [.QF_NIA, .QF_NIRA]),
  (Division.QF_NonLinearRealArith, [.QF_NRA])
]

/-- Entries of `tracks[Track.ProofExhibition]`, in the insertion order of the source dict. -/
def tracksProofExhibition : List (Division × List Logic) := [
  (Division.QF_Datatypes, [.QF_DT, .QF_UFDT]),
  (Division.QF_Equality, [.QF_AX, .QF_UF]),
  (Division.QF_Equality_LinearArith, [.QF_ALIA, .QF_AUFLIA, .QF_UFDTLIA, .QF_UFDTLIRA, .QF_UFIDL, .QF_UFLIA, .QF_UFLRA]),
  (Division.QF_Equality_NonLinearArith, [.QF_ANIA, .QF_AUFNIA, .QF_UFDTNIA, .QF_UFNIA, .QF_UFNRA]),
  (Division.QF_Equality_Bitvec, [.QF_ABV, .QF_AUFBV, .QF_UFBV, .QF_UFBVDT]),
  (Division.QF_LinearIntArith, [.QF_IDL, .QF_LIA, .QF_LIRA]),
  (Division.QF_LinearRealArith, [.QF_LRA, .QF_RDL]),
  (Division.QF_Bitvec, [.QF_BV]),
  (Division.QF_FPArith, [.QF_ABVFP, .QF_ABVFPLRA, .QF_AUFBVFP, .QF_BVFP, .QF_BVFPLRA, .QF_FP, .QF_FPLRA, .QF_UFFP, .QF_UFFPDTNIRA]),
  (Division.QF_NonLinearIntArith, [.QF_NIA, .QF_NIRA]),
  (Division.QF_NonLinearRealArith, [.QF_NRA]),
  (Division.QF_Strings, [.QF_S, .QF_SLIA, .QF_SNIA]),
  (Division.Equality, [.UF, .UFDT]),
  (Division.Equality_LinearArith, [.ALIA, .AUFDTLIA, .AUFDTLIRA, .AUFLIA, .AUFLIRA, .UFDTLIA, .UFDTLIRA, .UFIDL, .UFLIA, .UFLRA]),
  (Division.Equality_MachineArith, [.ABV, .ABVFP, .ABVFPLRA, .AUFBV, .AUFBVDTLIA, .AUFBVDTNIA, .AUFBVDTNIRA, .AUFBVFP, .AUFFPDTNIRA, .UFBV, .UFBVDT, .UFBVFP, .UFBVLIA, .UFFPDTNIRA]),
  (Division.Equality_NonLinearArith, [.ANIA, .AUFDTNIRA, .AUFNIA, .AUFNIRA, .UFDTNIA, .UFDTNIRA, .UFNIA]),
  (Division.Arith, [.LIA, .LRA, .NIA, .NRA]),
  (Division.Bitvec, [.BV]),
  (Division.FPArith, [.BVFP, .BVFPLRA, .FP, .FPLRA])
]

/-- Entries of `tracks[Track.Cloud]`, in the insertion order of the source dict. -/
def tracksCloud : List (Division × List Logic) := [
  (Division.QF_Datatypes, [.QF_DT, .QF_UFDT]),
  (Division.QF_Equality, [.QF_AX, .QF_UF]),
  (Division.QF_Equality_LinearArith, [.QF_ALIA, .QF_AUFLIA, .QF_UFDTLIA, .QF_UFDTLIRA, .QF_UFIDL, .QF_UFLIA, .QF_UFLRA]),
  (Division.QF_Equality_NonLinearArith, [.QF_ANIA, .QF_AUFNIA, .QF_UFDTNIA, .QF_UFNIA, .QF_UFNRA]),
  (Division.QF_Equality_Bitvec, [.QF_ABV, .QF_AUFBV, .QF_UFBV, .QF_UFBVDT]),
  (Division.QF_LinearIntArith, [.QF_IDL, .QF_LIA, .QF_LIRA]),
  (Division.QF_LinearRealArith, [.QF_LRA, .QF_RDL]),
  (Division.QF_Bitvec, [.QF_BV]),
  (Division.QF_FPArith, [.QF_ABVFP, .QF_ABVFPLRA, .QF_AUFBVFP, .QF_BVFP, .QF_BVFPLRA, .QF_FP, .QF_FPLRA, .QF_UFFP, .QF_UFFPDTNIRA]),
  (Division.QF_NonLinearIntArith, [.QF_NIA, .QF_NIRA]),
  (Division.QF_NonLinearRealArith, [.QF_NRA]),
  (Division.QF_Strings, [.QF_S, .QF_SLIA, .QF_SNIA]),
  (Division.Equality, [.UF, .UFDT]),
  (Division.Equality_LinearArith, [.ALIA, .AUFDTLIA, .AUFDTLIRA, .AUFLIA, .AUFLIRA, .UFDTLIA, .UFDTLIRA, .UFIDL, .UFLIA, .UFLRA]),
  (Division.Equality_MachineArith, [.ABV, .ABVFP, .ABVFPLRA, .AUFBV, .AUFBVDTLIA, .AUFBVDTNIA, .AUFBVDTNIRA, .AUFBVFP, .AUFFPDTNIRA, .UFBV, .UFBVDT, .UFBVFP, .UFBVLIA, .UFFPDTNIRA]),
  (Division.Equality_NonLinearArith, [.ANIA, .AUFDTNIRA, .AUFNIA, .AUFNIRA, .UFDTNIA, .UFDTNIRA, .UFNIA]),
  (Division.Arith, [.LIA, .LRA, .NIA, .NRA]),
  (Division.Bitvec, [.BV]),
  (Division.FPArith, [.BVFP, .BVFPLRA, .FP, .FPLRA])
]

/-- Entries of `tracks[Track.Parallel]`, in the insertion order of the source dict. -/
def tracksParallel : List (Division × List Logic) := [
  (Division.QF_Datatypes, [.QF_DT, .QF_UFDT]),
  (Division.QF_Equality, [.QF_AX, .QF_UF]),
  (Division.QF_Equality_LinearArith, [.QF_ALIA, .QF_AUFLIA, .QF_UFDTLIA, .QF_UFDTLIRA, .QF_UFIDL, .QF_UFLIA, .QF_UFLRA]),
  (Division.QF_Equality_NonLinearArith, [.QF_ANIA, .QF_AUFNIA, .QF_UFDTNIA, .QF_UFNIA, .QF_UFNRA]),
  (Division.QF_Equality_Bitvec, [.QF_ABV, .QF_AUFBV, .QF_UFBV, .QF_UFBVDT]),
  (Division.QF_LinearIntArith, [.QF_IDL, .QF_LIA, .QF_LIRA]),
  (Division.QF_LinearRealArith, [.QF_LRA, .QF_RDL]),
  (Division.QF_Bitvec, [.QF_BV]),
  (Division.QF_FPArith, [.QF_ABVFP, .QF_ABVFPLRA, .QF_AUFBVFP, .QF_BVFP, .QF_BVFPLRA, .QF_FP, .QF_FPLRA, .QF_UFFP, .QF_UFFPDTNIRA]),
  (Division.QF_NonLinearIntArith, [.QF_NIA, .QF_NIRA]),
  (Division.QF_NonLinearRealArith, [.QF_NRA]),
  (Division.QF_Strings, [.QF_S, .QF_SLIA, .QF_SNIA]),
  (Division.Equality, [.UF, .UFDT]),
  (Division.Equality_LinearArith, [.ALIA, .AUFDTLIA, .AUFDTLIRA, .AUFLIA, .AUFLIRA, .UFDTLIA, .UFDTLIRA, .UFIDL, .UFLIA, .UFLRA]),
  (Division.Equality_MachineArith, [.ABV, .ABVFP, .ABVFPLRA, .AUFBV, .AUFBVDTLIA, .AUFBVDTNIA, .AUFBVDTNIRA, .AUFBVFP, .AUFFPDTNIRA, .UFBV, .UFBVDT, .UFBVFP, .UFBVLIA, .UFFPDTNIRA]),
  (Division.Equality_NonLinearArith, [.ANIA, .AUFDTNIRA, .AUFNIA, .AUFNIRA, .UFDTNIA, .UFDTNIRA, .UFNIA]),
  (Division.Arith, [.LIA, .LRA, .NIA, .NRA]),
  (Division.Bitvec, [.BV]),
  (Division.FPArith, [.BVFP, .BVFPLRA, .FP, .FPLRA])
]

/-- The static taxonomy table `tracks`: for each track, the association list of its
divisions with their logic sets (Python dicts preserve insertion order). -/
def tracks : Track → List (Division × List Logic)
  | .SingleQuery => tracksSingleQuery
  | .Incremental => tracksIncremental
  | .UnsatCore => tracksUnsatCore
  | .ModelValidation => tracksModelValidation
  | .ProofExhibition => tracksProofExhibition
  | .Cloud => tracksCloud
  | .Parallel => tracksParallel
/-! ## Derived taxonomy queries -/

/-- Dict lookup `tracks[t][dv]`; `none` models a `KeyError`. -/
def tracksGet (t : Track) (dv : Division) : Option (List Logic) :=
  ((tracks t).find? (fun e => decide (e.1 = dv))).map (fun e => e.2)

/-- `logic_used_for_track(t)`: `functools.reduce(lambda x, y: x | y, tracks[t].values())`.
`reduce` without an initializer raises on an empty sequence; no track of the table has an
empty division dict, and that unreachable case is mapped to `∅` here. -/
def logic_used_for_track (t : Track) : Finset Logic :=
  match tracks t with
  | [] => ∅
  | e :: rest => rest.foldl (fun s e' => s ∪ e'.2.toFinset) e.2.toFinset

/-! ## Records: hashes, archives, commands, participations -/

/-- `Hash`: optional sha256/sha512 digests. -/
structure Hash where
  sha256 : Option String := none
  sha512 : Option String := none
deriving DecidableEq

/-- The `Hash.check_one_set` model validator: at least one hash kind must be present. -/
def Hash.check_one_set (h : Hash) : Except String Hash :=
  if h.sha256 = none ∧ h.sha512 = none then .error "one hash type is required" else .ok h

/-- Validated construction of a `Hash` (pydantic runs `check_one_set` after field parsing). -/
def Hash.mk? (sha256 sha512 : Option String) : Except String Hash :=
  Hash.check_one_set ⟨sha256, sha512⟩

/-- `Archive`: a URL plus an optional integrity hash.  URL syntax validation is an
external concern and is not modelled. -/
structure Archive where
  url : String
  h : Option Hash := none
deriving DecidableEq

/-- Validated construction of an `Archive` record `{url, h?}`: a present `h` sub-record
is itself validated by `Hash.check_one_set`, and its failure fails the whole record. -/
def Archive.mk? (url : String) (h : Option (Option String × Option String)) :
    Except String Archive :=
  match h with
  | none => .ok ⟨url, none⟩
  | some (s256, s512) =>
    match Hash.mk? s256 s512 with
    | .error e => .error e
    | .ok hh => .ok ⟨url, some hh⟩

/-- `Command`: binary, arguments, starexec compatibility flag. -/
structure Command where
  binary : String
  arguments : List String := []
  compa_starexec : Bool := false
deriving DecidableEq

/-- `Participation`: one declaration of tracks, explicit logics (the normalized
`Logics.root` list) and explicit divisions, with optional archive/command. -/
structure Participation where
  tracks : List Track
  logics : List Logic := []
  divisions : List Division := []
  archive : Option Archive := none
  command : Option Command := none
  experimental : Bool := false
deriving DecidableEq

/-! ## Participation merging (`Participation.get`)

The accumulator `dict[Track, dict[Division, set[Logic]]]` is modelled as a function
that returns `none` for divisions absent from the dict.  The intermediate
`d.setdefault(track, {})` has no observable effect in this flattened view. -/

/-- The accumulator type of `Participation.get`. -/
abbrev MergeAcc := Track → Division → Option (Finset Logic)

/-- The empty accumulator (the default `d = {}` of `get`). -/
def emptyAcc : MergeAcc := fun _ _ => none

/-- Point update of an accumulator. -/
def accUpd (acc : MergeAcc) (t : Track) (dv : Division) (s : Finset Logic) : MergeAcc :=
  fun t' dv' => if t' = t ∧ dv' = dv then some s else acc t' dv'

/-- The division loop of `Participation.get` for track `tk`:
`logics = divs.setdefault(division, set()); logics.update(tracks[track][division])`.
A division missing from the track's table raises an uncaught `KeyError` *after* the
`setdefault` has inserted the (possibly empty) set, so on error the accumulator state
at the raise point is returned together with the offending key. -/
def divLoop (tk : Track) (acc : MergeAcc) : List Division → MergeAcc × Option (Track × Division)
  | [] => (acc, none)
  | dv :: rest =>
    match tracksGet tk dv with
    | none => (accUpd acc tk dv ((acc tk dv).getD ∅), some (tk, dv))
    | some ls => divLoop tk (accUpd acc tk dv (((acc tk dv).getD ∅) ∪ ls.toFinset)) rest

/-- The inner scan of the logic loop: for every division of the track whose taxonomy
entry contains the logic, add just that logic to the accumulator's division set. -/
def logicScan (tk : Track) (L : Logic) (acc : MergeAcc) : List (Division × List Logic) → MergeAcc
  | [] => acc
  | (dv, ls) :: rest =>
    if L ∈ ls then logicScan tk L (accUpd acc tk dv (insert L ((acc tk dv).getD ∅))) rest
    else logicScan tk L acc rest

/-- The outer logic loop of `Participation.get` over the declared logics. -/
def logicLoop (tk : Track) (acc : MergeAcc) : List Logic → MergeAcc
  | [] => acc
  | L :: rest => logicLoop tk (logicScan tk L acc (tracks tk)) rest

/-- Processing of one declared track: the division loop (with possible `KeyError`),
then the logic loop. -/
def trackStep (p : Participation) (acc : MergeAcc) (tk : Track) : MergeAcc × Option (Track × Division) :=
  match divLoop tk acc p.divisions with
  | (acc1, some e) => (acc1, some e)
  | (acc1, none) => (logicLoop tk acc1 p.logics, none)

/-- The loop over the declared tracks; an uncaught `KeyError` aborts the rest. -/
def trackLoop (p : Participation) (acc : MergeAcc) : List Track → MergeAcc × Option (Track × Division)
  | [] => (acc, none)
  | tk :: rest =>
    match trackStep p acc tk with
    | (acc1, some e) => (acc1, some e)
    | (acc1, none) => trackLoop p acc1 rest

/-- `Participation.get`: merge this participation into accumulator `acc`.  The second
component records the key of an uncaught `KeyError` (a declared division missing from a
declared track's taxonomy table); in that case the first component is the accumulator
state at the moment the error was raised. -/
def Participation.get (p : Participation) (acc : MergeAcc) : MergeAcc × Option (Track × Division) :=
  trackLoop p acc p.tracks

/-- Decidable equality of `Except` results (construction either fails with a message or
returns the value). -/
instance {e a : Type} [DecidableEq e] [DecidableEq a] : DecidableEq (Except e a) := fun x y =>
  match x, y with
  | .error u, .error v =>
    if h : u = v then isTrue (by rw [h]) else isFalse (by intro hc; cases hc; exact h rfl)
  | .ok u, .ok v =>
    if h : u = v then isTrue (by rw [h]) else isFalse (by intro hc; cases hc; exact h rfl)
  | .error _, .ok _ => isFalse (by intro hc; cases hc)
  | .ok _, .error _ => isFalse (by intro hc; cases hc)

/-! ## The `Smt2File` benchmark identity codec

Paths are modelled through their pathlib `parts` decomposition.  For POSIX pure paths,
pathlib collapses spurious slashes and single-dot components when parsing, keeps `..`
components, and restarts at an absolute segment (whose root shows up as a leading `"/"`
part; the special `//` root is not distinguished here). -/

/-- `Smt2File`: structured benchmark identity (value semantics). -/
structure Smt2File where
  incremental : Bool
  logic : Logic
  family : List String
  name : String
deriving DecidableEq

/-- A path segment free of the `/` separator. -/
def segOk (s : String) : Bool := s.toList.all (fun c => c ≠ '/')

/-- The construction-time model validator of `Smt2File`: neither the name nor any
family segment may contain `/`. -/
def Smt2File.check (f : Smt2File) : Except String Smt2File :=
  if ¬ segOk f.name then
    .error "name should not contain /, directory part should go in family name"
  else if ¬ f.family.all segOk then
    .error "family part should not contain /, it should be splitted"
  else .ok f

/-- Validity of an `Smt2File` value, as enforced at construction. -/
def Smt2File.valid (f : Smt2File) : Bool := segOk f.name && f.family.all segOk

/-- Validated construction of an `Smt2File`. -/
def Smt2File.mk? (incremental : Bool) (logic : Logic) (family : List String)
    (name : String) : Except String Smt2File :=
  Smt2File.check ⟨incremental, logic, family, name⟩

/-- Split a character list at `/` (separators delimit, so `n` separators give `n + 1`
chunks, empty chunks included). -/
def splitSlash : List Char → List (List Char)
  | [] => [[]]
  | c :: cs =>
    let r := splitSlash cs
    if c = '/' then [] :: r
    else
      match r with
      | [] => [[c]]
      | h :: t => (c :: h) :: t

/-- The path components pathlib keeps from one raw segment: split at `/`, then drop
empty components and single-dot components. -/
def pySegParts (s : String) : List String :=
  ((splitSlash s.toList).map String.mk).filter (fun c => c ≠ "" && c ≠ ".")

/-- Does a segment start with `/` (an absolute segment, which resets the path)? -/
def startsSlash (s : String) : Bool :=
  match s.toList with
  | c :: _ => c = '/'
  | [] => false

/-- `PurePath(seg₁, seg₂, …).parts` for POSIX paths. -/
def pyParts (segs : List String) : List String :=
  segs.foldl (fun acc s => if startsSlash s then "/" :: pySegParts s else acc ++ pySegParts s) []

/-- `Smt2File.path` as its list of parts:
`Path(i, str(self.logic)).joinpath(Path(*self.family)).joinpath(self.name)`. -/
def Smt2File.pathParts (f : Smt2File) : List String :=
  pyParts ([(if f.incremental then "incremental" else "non-incremental"), f.logic.name]
    ++ f.family ++ [f.name])

/-- The string form of `Smt2File.path` (a relative path: parts joined by `/`). -/
def Smt2File.pathStr (f : Smt2File) : String :=
  String.intercalate "/" f.pathParts

/-- `Smt2File.of_path`, decoding a path given by its `parts` decomposition.
`parts[0]` must be `"incremental"` or `"non-incremental"` (else `ValueError`);
`parts[1]` must name a `Logic` (else `ValueError`); an out-of-range index raises
`IndexError`.  The family is `parts[2:-1]`, the name is `parts[-1]`, and the resulting
record passes through the `Smt2File` construction validator. -/
def Smt2File.of_path (parts : List String) : Except String Smt2File :=
  match parts with
  | [] => .error "IndexError: tuple index out of range"
  | p0 :: rest =>
    let inc? : Except String Bool :=
      if p0 = "incremental" then .ok true
      else if p0 = "non-incremental" then .ok false
      else .error "Smt2File path should start with incremental or non-incremental"
    match inc? with
    | .error e => .error e
    | .ok inc =>
      match rest with
      | [] => .error "IndexError: tuple index out of range"
      | p1 :: rest2 =>
        match Logic.ofString p1 with
        | none => .error (p1 ++ " is not a valid Logic")
        | some lg => Smt2File.mk? inc lg rest2.dropLast ((p1 :: rest2).getLastD "")

/-! ## The regex logic selector (`Logics`)

`re` is modelled on the fragment the selector patterns use: literal word characters and
`.`, each optionally starred.  `fullmatch` requires the whole string to be in the
pattern's language, with no implicit prefix or substring matching. -/

/-- An atom of the modelled regular-expression fragment: `.` or a literal character. -/
inductive RAtom where
  | dot
  | ch (c : Char)
deriving DecidableEq

/-- A compiled pattern: a sequence of atoms, each one optionally starred. -/
abbrev Regex := List (RAtom × Bool)

/-- Does an atom match one character? -/
def amatch : RAtom → Char → Bool
  | .dot, _ => true
  | .ch c, x => x = c

/-- Backtracking matcher behind `fullmatch`.  Each step removes an atom or consumes a
character, so `r.length + s.length` bounds the recursion depth; the structural fuel
parameter keeps the definition computing by kernel reduction alone. -/
def fullmatchGo : Nat → Regex → List Char → Bool
  | 0, _, _ => false
  | _ + 1, [], [] => true
  | _ + 1, [], _ :: _ => false
  | _ + 1, (_, false) :: _, [] => false
  | fuel + 1, (a, false) :: r, c :: cs => amatch a c && fullmatchGo fuel r cs
  | fuel + 1, (_, true) :: r, [] => fullmatchGo fuel r []
  | fuel + 1, (a, true) :: r, c :: cs =>
    fullmatchGo fuel r (c :: cs) || (amatch a c && fullmatchGo fuel ((a, true) :: r) cs)

/-- `re.fullmatch`: does the whole character list belong to the pattern's language? -/
def fullmatch (r : Regex) (s : List Char) : Bool :=
  fullmatchGo (r.length + s.length + 1) r s

/-- One atom of the modelled fragment: `.` or a literal word character (letter, digit,
`_`); anything else is outside the fragment. -/
def toAtom (c : Char) : Option RAtom :=
  if c = '.' then some .dot
  else if c.isAlphanum || c = '_' then some (.ch c)
  else none

/-- `re.compile` on the modelled fragment: atoms, each optionally followed by `*`;
anything outside the fragment is rejected (`none`). -/
def compileL : List Char → Option Regex
  | [] => some []
  | [c] => (toAtom c).map (fun a => [(a, false)])
  | c :: c2 :: rest =>
    match toAtom c with
    | none => none
    | some a =>
      if c2 = '*' then (compileL rest).map (fun r => (a, true) :: r)
      else (compileL (c2 :: rest)).map (fun r => (a, false) :: r)

/-- Compile a pattern string. -/
def compile (s : String) : Option Regex := compileL s.toList

/-- `Logics.logics_from_regexp`: iterate the `Logic` enum in declaration order and keep
the members whose canonical name fully matches the pattern. -/
def Logics.logics_from_regexp (data : String) : Option (List Logic) :=
  (compile data).map (fun r => Logic.all.filter (fun L => fullmatch r (Logic.name L).toList))

/-! ## Submissions and their cross-field validation -/

/-- `Contributor` (URL content validation is out of scope). -/
structure Contributor where
  name : String
  website : Option String := none
deriving DecidableEq

/-- `NameEmail` (email syntax validation is out of scope). -/
structure NameEmail where
  name : String
  email : String
deriving DecidableEq

/-- `Submission`: the full declaration of a solver (already parsed fields). -/
structure Submission where
  name : String
  contributors : List Contributor
  contacts : List NameEmail
  archive : Option Archive := none
  command : Option Command := none
  website : String
  system_description : String
  solver_type : SolverType
  participations : List Participation
deriving DecidableEq

/-- The error message of the archive inheritance rule. -/
def archiveMsg : String :=
  "Field archive is needed in all participations if not present at the root"

/-- The error message of the command inheritance rule. -/
def commandMsg : String :=
  "Field command is needed in all participations if not present at the root"

/-- The `Submission.check_archive` model validator, run after construction: the archive
inheritance rule is checked first over all participations, then the command rule. -/
def Submission.check_archive (s : Submission) : Except String Submission :=
  if s.archive = none ∧ ¬ s.participations.all (fun p => p.archive.isSome) then
    .error archiveMsg
  else if s.command = none ∧ ¬ s.participations.all (fun p => p.command.isSome) then
    .error commandMsg
  else .ok s

/-! ## Properties of the participation merger -/

/-- The set of declared logics that clause (2) of the merge adds to division `dv` of
track `tk`: those declared logics that occur in `dv`'s taxonomy entry for `tk`. -/
def logicAdds (lls : List Logic) (tk : Track) (dv : Division) : Finset Logic :=
  (lls.filter (fun L => decide (∃ e ∈ tracks tk, e.1 = dv ∧ L ∈ e.2))).toFinset

lemma accUpd_eval (acc : MergeAcc) (t : Track) (dv : Division) (s : Finset Logic)
    (t' : Track) (dv' : Division) :
    accUpd acc t dv s t' dv' = if t' = t ∧ dv' = dv then some s else acc t' dv' := rfl

lemma logicScan_eval (tk : Track) (L : Logic) (table : List (Division × List Logic)) :
    ∀ (acc : MergeAcc) (t' : Track) (dv : Division),
      logicScan tk L acc table t' dv =
        if t' = tk ∧ (∃ e ∈ table, e.1 = dv ∧ L ∈ e.2) then
          some (insert L ((acc t' dv).getD ∅))
        else acc t' dv := by
  induction table with
  | nil => intro acc t' dv; simp [logicScan]
  | cons e rest ih =>
    intro acc t' dv
    obtain ⟨dv0, ls0⟩ := e
    by_cases hL : L ∈ ls0
    · rw [logicScan, if_pos hL, ih]
      by_cases ht : t' = tk
      · subst ht
        by_cases hdv : dv = dv0
        · subst hdv
          by_cases hrest : (∃ e ∈ rest, e.1 = dv ∧ L ∈ e.2) <;>
            simp [accUpd_eval, hrest, hL, Finset.insert_idem, List.exists_mem_cons_iff]
        · by_cases hrest : (∃ e ∈ rest, e.1 = dv ∧ L ∈ e.2) <;>
            simp [accUpd_eval, hrest, hL, hdv, List.exists_mem_cons_iff, Ne.symm hdv]
      · simp [accUpd_eval, ht]
    · rw [logicScan, if_neg hL, ih]
      by_cases ht : t' = tk
      · subst ht
        by_cases hrest : (∃ e ∈ rest, e.1 = dv ∧ L ∈ e.2) <;>
          simp [hrest, hL, List.exists_mem_cons_iff]
      · simp [ht]

lemma logicAdds_nil (tk : Track) (dv : Division) : logicAdds [] tk dv = ∅ := rfl

lemma logicAdds_cons (L : Logic) (rest : List Logic) (tk : Track) (dv : Division) :
    logicAdds (L :: rest) tk dv =
      if (∃ e ∈ tracks tk, e.1 = dv ∧ L ∈ e.2) then insert L (logicAdds rest tk dv)
      else logicAdds rest tk dv := by
  by_cases h : (∃ e ∈ tracks tk, e.1 = dv ∧ L ∈ e.2) <;>
    simp [logicAdds, List.filter_cons, h]

lemma logicLoop_eval (tk : Track) (lls : List Logic) :
    ∀ (acc : MergeAcc) (t' : Track) (dv : Division),
      logicLoop tk acc lls t' dv =
        if t' = tk ∧ logicAdds lls tk dv ≠ ∅ then
          some (((acc t' dv).getD ∅) ∪ logicAdds lls tk dv)
        else acc t' dv := by
  induction lls with
  | nil => intro acc t' dv; simp [logicLoop, logicAdds_nil]
  | cons L rest ih =>
    intro acc t' dv
    rw [logicLoop, ih, logicScan_eval]
    by_cases ht : t' = tk
    · subst ht
      by_cases hq : (∃ e ∈ tracks t', e.1 = dv ∧ L ∈ e.2)
      · rw [logicAdds_cons, if_pos hq]
        by_cases hrest : logicAdds rest t' dv = ∅ <;>
          simp [hq, hrest, Finset.union_insert, Finset.insert_union, Finset.insert_eq,
            Finset.union_comm, Finset.union_assoc, Finset.union_left_comm,
            Finset.union_eq_empty, Finset.singleton_ne_empty]
      · rw [logicAdds_cons, if_neg hq]
        simp [hq]
    · simp [ht]

lemma divLoop_nil (tk : Track) (acc : MergeAcc) : divLoop tk acc [] = (acc, none) := rfl

lemma trackStep_no_divisions (p : Participation) (hdiv : p.divisions = [])
    (acc : MergeAcc) (tk : Track) :
    trackStep p acc tk = (logicLoop tk acc p.logics, none) := by
  rw [trackStep, hdiv, divLoop_nil]

lemma trackLoop_snd_no_divisions (p : Participation) (hdiv : p.divisions = []) :
    ∀ (ts : List Track) (acc : MergeAcc), (trackLoop p acc ts).2 = none := by
  intro ts
  induction ts with
  | nil => intro acc; rfl
  | cons tk rest ih =>
    intro acc
    rw [trackLoop, trackStep_no_divisions p hdiv]
    exact ih _

lemma trackLoop_stable_logics (p : Participation) (hdiv : p.divisions = [])
    (t : Track) (dv : Division) :
    ∀ (ts : List Track) (acc : MergeAcc),
      (logicAdds p.logics t dv = ∅ ∨
        ∃ S, acc t dv = some S ∧ logicAdds p.logics t dv ⊆ S) →
      (trackLoop p acc ts).1 t dv = acc t dv := by
  intro ts
  induction ts with
  | nil => intro acc _; rfl
  | cons tk rest ih =>
    intro acc hstab
    rw [trackLoop, trackStep_no_divisions p hdiv]
    have hkeep : logicLoop tk acc p.logics t dv = acc t dv := by
      rw [logicLoop_eval]
      by_cases ht : t = tk
      · subst ht
        rcases hstab with hA | ⟨S, hS, hsub⟩
        · simp [hA]
        · rw [hS]
          simp [Finset.union_eq_left.mpr hsub]
      · simp [ht]
    rw [ih _ (by rw [hkeep]; exact hstab), hkeep]

lemma trackLoop_char_logics (p : Participation) (hdiv : p.divisions = [])
    (t : Track) (dv : Division) :
    ∀ (ts : List Track) (acc : MergeAcc), t ∈ ts →
      (trackLoop p acc ts).1 t dv =
        if logicAdds p.logics t dv = ∅ then acc t dv
        else some (((acc t dv).getD ∅) ∪ logicAdds p.logics t dv) := by
  intro ts
  induction ts with
  | nil => intro acc h; cases h
  | cons tk rest ih =>
    intro acc ht
    rw [trackLoop, trackStep_no_divisions p hdiv]
    by_cases htk : t = tk
    · subst htk
      have h1 : logicLoop t acc p.logics t dv =
          if logicAdds p.logics t dv = ∅ then acc t dv
          else some (((acc t dv).getD ∅) ∪ logicAdds p.logics t dv) := by
        rw [logicLoop_eval]
        by_cases hA : logicAdds p.logics t dv = ∅ <;> simp [hA]
      rw [trackLoop_stable_logics p hdiv t dv rest _ ?_, h1]
      by_cases hA : logicAdds p.logics t dv = ∅
      · exact Or.inl hA
      · refine Or.inr ⟨((acc t dv).getD ∅) ∪ logicAdds p.logics t dv, ?_, Finset.subset_union_right⟩
        rw [h1, if_neg hA]
    · have h2 : logicLoop tk acc p.logics t dv = acc t dv := by
        rw [logicLoop_eval]; simp [htk]
      have ht' : t ∈ rest := by
        cases ht with
        | head => exact absurd rfl htk
        | tail _ h => exact h
      rw [ih _ ht', h2]

lemma trackStep_divs (p : Participation) (hlog : p.logics = []) (D : Division)
    (hdiv : p.divisions = [D]) (acc : MergeAcc) (tk : Track) :
    trackStep p acc tk =
      match tracksGet tk D with
      | none => (accUpd acc tk D ((acc tk D).getD ∅), some (tk, D))
      | some ls => (accUpd acc tk D (((acc tk D).getD ∅) ∪ ls.toFinset), none) := by
  rw [trackStep, hdiv]
  cases h : tracksGet tk D with
  | none => simp [divLoop, h]
  | some ls => simp [divLoop, h, hlog, logicLoop]

lemma trackLoop_stable_divs (p : Participation) (hlog : p.logics = []) (D : Division)
    (hdiv : p.divisions = [D]) (t : Track) (S : Finset Logic) (ls : List Logic)
    (hget : tracksGet t D = some ls) (hsub : ls.toFinset ⊆ S) :
    ∀ (ts : List Track) (acc : MergeAcc), acc t D = some S →
      (trackLoop p acc ts).1 t D = some S := by
  intro ts
  induction ts with
  | nil => intro acc h; exact h
  | cons tk rest ih =>
    intro acc hS
    rw [trackLoop, trackStep_divs p hlog D hdiv]
    by_cases htk : t = tk
    · subst htk
      simp only [hget, hS, Option.getD_some, Finset.union_eq_left.mpr hsub]
      apply ih
      simp [accUpd_eval]
    · cases hg : tracksGet tk D with
      | none => simp [hg, accUpd_eval, htk, hS]
      | some ls' =>
        simp only [hg]
        apply ih
        simp [accUpd_eval, htk, hS]

lemma trackLoop_char_divs (p : Participation) (hlog : p.logics = []) (D : Division)
    (hdiv : p.divisions = [D]) (t : Track) :
    ∀ (ts : List Track) (acc : MergeAcc), t ∈ ts → (trackLoop p acc ts).2 = none →
      ∃ ls, tracksGet t D = some ls ∧
        (trackLoop p acc ts).1 t D = some (((acc t D).getD ∅) ∪ ls.toFinset) := by
  intro ts
  induction ts with
  | nil => intro acc h _; cases h
  | cons tk rest ih =>
    intro acc ht hok
    rw [trackLoop, trackStep_divs p hlog D hdiv] at hok ⊢
    by_cases htk : t = tk
    · subst htk
      cases hg : tracksGet t D with
      | none => simp [hg] at hok
      | some ls =>
        refine ⟨ls, rfl, ?_⟩
        simp only [hg]
        apply trackLoop_stable_divs p hlog D hdiv t _ ls hg Finset.subset_union_right
        simp [accUpd_eval]
    · cases hg : tracksGet tk D with
      | none => simp [hg] at hok
      | some ls' =>
        simp only [hg] at hok ⊢
        have ht' : t ∈ rest := by
          cases ht with
          | head => exact absurd rfl htk
          | tail _ h => exact h
        obtain ⟨ls, hls, hval⟩ := ih _ ht' hok
        refine ⟨ls, hls, ?_⟩
        rw [hval]
        simp [accUpd_eval, htk]

/-- C2: logic-level opt-in is surgical.  For a participation that declares no division,
merging succeeds, and for every declared track `t` each division `dv` of `t` gains
exactly the declared logics present in its taxonomy entry (`logicAdds`): every division
containing a declared logic gains it, no logic outside the declared list is added, and
a declared logic occurring in no division of `t` is silently ignored. -/
theorem participation_get_logic_optin (p : Participation) (acc : MergeAcc) (t : Track)
    (hdiv : p.divisions = []) (ht : t ∈ p.tracks) :
    (p.get acc).2 = none ∧
    ∀ dv : Division,
      (p.get acc).1 t dv =
        if logicAdds p.logics t dv = ∅ then acc t dv
        else some (((acc t dv).getD ∅) ∪ logicAdds p.logics t dv) := by
  rw [Participation.get]
  exact ⟨trackLoop_snd_no_divisions p hdiv p.tracks acc,
    fun dv => trackLoop_char_logics p hdiv t dv p.tracks acc ht⟩

/-- Witness for C2 at a concrete input: declaring `QF_LIA` for the single-query track. -/
theorem participation_get_logic_optin_witness :
    (Participation.get ⟨[Track.SingleQuery], [Logic.QF_LIA], [], none, none, false⟩
        emptyAcc).2 = none ∧
    ∀ dv : Division,
      (Participation.get ⟨[Track.SingleQuery], [Logic.QF_LIA], [], none, none, false⟩
          emptyAcc).1 Track.SingleQuery dv =
        if logicAdds [Logic.QF_LIA] Track.SingleQuery dv = ∅ then emptyAcc Track.SingleQuery dv
        else some (((emptyAcc Track.SingleQuery dv).getD ∅) ∪
          logicAdds [Logic.QF_LIA] Track.SingleQuery dv) :=
  participation_get_logic_optin ⟨[Track.SingleQuery], [Logic.QF_LIA], [], none, none, false⟩
    emptyAcc Track.SingleQuery rfl (by decide)

/-- C3: division-level opt-in is everything in the division.  For a participation
declaring exactly division `D` (and no explicit logic), a successful merge gives every
declared track's entry at `D` exactly the prior contents united with the full taxonomy
logic set `tracks[t][D]` -- every logic of that set and no more. -/
theorem participation_get_division_optin (p : Participation) (acc : MergeAcc) (t : Track)
    (D : Division) (hlog : p.logics = []) (hdiv : p.divisions = [D]) (ht : t ∈ p.tracks)
    (hok : (p.get acc).2 = none) :
    ∃ ls, tracksGet t D = some ls ∧
      (p.get acc).1 t D = some (((acc t D).getD ∅) ∪ ls.toFinset) := by
  rw [Participation.get] at hok ⊢
  exact trackLoop_char_divs p hlog D hdiv t p.tracks acc ht hok

/-- Witness for C3 at a concrete input: declaring division `QF_Bitvec` for the
single-query track. -/
theorem participation_get_division_optin_witness :
    (Participation.get ⟨[Track.SingleQuery], [], [Division.QF_Bitvec], none, none, false⟩
        emptyAcc).2 = none ∧
    ∃ ls, tracksGet Track.SingleQuery Division.QF_Bitvec = some ls ∧
      (Participation.get ⟨[Track.SingleQuery], [], [Division.QF_Bitvec], none, none, false⟩
          emptyAcc).1 Track.SingleQuery Division.QF_Bitvec =
        some (((emptyAcc Track.SingleQuery Division.QF_Bitvec).getD ∅) ∪ ls.toFinset) :=
  ⟨by decide,
    participation_get_division_optin
      ⟨[Track.SingleQuery], [], [Division.QF_Bitvec], none, none, false⟩ emptyAcc
      Track.SingleQuery Division.QF_Bitvec rfl rfl (by decide) (by decide)⟩

/-- C10: merging is not total over declared divisions.  Declaring `QF_Bitvec` then
`QF_Strings` for the model-validation track hits a `KeyError` (`QF_Strings` is not in
that track's table), after the empty set for `QF_Strings` was already inserted; the
earlier `QF_Bitvec` merge also persists, so the accumulator is left partially mutated. -/
theorem participation_get_keyerror_partial_mutation :
    tracksGet Track.ModelValidation Division.QF_Strings = none ∧
    (Participation.get
        ⟨[Track.ModelValidation], [], [Division.QF_Bitvec, Division.QF_Strings], none, none,
          false⟩ emptyAcc).2 = some (Track.ModelValidation, Division.QF_Strings) ∧
    (Participation.get
        ⟨[Track.ModelValidation], [], [Division.QF_Bitvec, Division.QF_Strings], none, none,
          false⟩ emptyAcc).1 Track.ModelValidation Division.QF_Strings = some ∅ ∧
    (Participation.get
        ⟨[Track.ModelValidation], [], [Division.QF_Bitvec, Division.QF_Strings], none, none,
          false⟩ emptyAcc).1 Track.ModelValidation Division.QF_Bitvec =
      some {Logic.QF_BV} ∧
    emptyAcc Track.ModelValidation Division.QF_Strings = none := by
  refine ⟨by decide, by decide, by decide, by decide, rfl⟩

/-! ## Properties of the derived taxonomy queries -/

lemma mem_foldl_union : ∀ (xs : List (Division × List Logic)) (s : Finset Logic) (L : Logic),
    (L ∈ xs.foldl (fun a e => a ∪ e.2.toFinset) s) ↔ L ∈ s ∨ ∃ e ∈ xs, L ∈ e.2 := by
  intro xs
  induction xs with
  | nil => intro s L; simp
  | cons e rest ih =>
    intro s L
    rw [List.foldl_cons, ih]
    simp [List.exists_mem_cons_iff, or_assoc]

/-- C7: `logic_used_for_track t` is exactly the union of the taxonomy logic sets over
all divisions of `t`: a logic is in the result iff it occurs in the entry of at least
one division of `t`. -/
theorem logic_used_for_track_char (t : Track) (L : Logic) :
    L ∈ logic_used_for_track t ↔ ∃ e ∈ tracks t, L ∈ e.2 := by
  rw [logic_used_for_track]
  rcases h : tracks t with _ | ⟨e, rest⟩
  · simp
  · rw [mem_foldl_union]
    simp [List.exists_mem_cons_iff]

/-! ## Properties of archive construction and submission validation -/

/-- C4: an `Archive` record carrying a hash object fails construction with the hash
error exactly when neither sha256 nor sha512 is present; in particular the record
`{url, h: {}}` always fails. -/
theorem archive_requires_hash (url : String) (s256 s512 : Option String) :
    (Archive.mk? url (some (s256, s512)) = .error "one hash type is required" ↔
      (s256 = none ∧ s512 = none)) ∧
    Archive.mk? url (some (none, none)) = .error "one hash type is required" := by
  constructor
  · by_cases h : s256 = none ∧ s512 = none <;>
      simp [Archive.mk?, Hash.mk?, Hash.check_one_set, h]
  · rfl

lemma exists_none_iff_not_all {α β : Type} (l : List α) (g : α → Option β) :
    (¬ l.all (fun x => (g x).isSome)) ↔ ∃ x ∈ l, g x = none := by
  simp [List.all_eq_true, Option.isSome_iff_ne_none, not_forall]

/-- The participation used by the C5 submissions: no own archive, no own command. -/
def pNone : Participation := ⟨[Track.SingleQuery], [], [], none, none, false⟩

/-- A submission whose only participation inherits archive and command, with neither
present at the root. -/
def subBothMissing : Submission :=
  ⟨"solver", [⟨"Jane", none⟩], [⟨"Jane", "jane@example.org"⟩], none, none,
    "https://example.org", "https://example.org/sys", .standalone, [pNone]⟩

/-- A sample archive record. -/
def arSample : Archive := ⟨"https://example.org/a.tar", some ⟨some "abc", none⟩⟩

/-- A sample command record. -/
def cmdSample : Command := ⟨"bin/solver", [], false⟩

/-- The same submission with root archive and command both present. -/
def subRootBoth : Submission :=
  { subBothMissing with archive := some arSample, command := some cmdSample }

/-- The same submission with the root archive removed (root command still present). -/
def subRootCmdOnly : Submission := { subBothMissing with command := some cmdSample }

/-- C5 counterexample: a submission with root archive and command both absent and a
participation carrying neither satisfies the claim's command-error condition, yet
validation does not fail with the command error -- the archive rule is checked first
and its error is the one raised. -/
theorem submission_command_error_iff_cex :
    subBothMissing.command = none ∧
    (∃ p ∈ subBothMissing.participations, p.command = none) ∧
    Submission.check_archive subBothMissing ≠ .error commandMsg ∧
    Submission.check_archive subBothMissing = .error archiveMsg := by
  exact ⟨rfl, by decide, by decide, by decide⟩

/-- C5 (amended): validation fails with the archive error iff the root archive is
absent and some participation lacks its own archive; it fails with the command error
iff the archive rule is satisfied (that check runs first) while the root command is
absent and some participation lacks its own command; it passes otherwise.  En route:
the sample submission with root archive and command set passes even though its
participation has neither, and removing the root archive makes validation fail with
the archive error. -/
theorem submission_check_archive_char :
    (∀ s : Submission,
      (Submission.check_archive s = .error archiveMsg ↔
        s.archive = none ∧ ∃ p ∈ s.participations, p.archive = none) ∧
      (Submission.check_archive s = .error commandMsg ↔
        (¬(s.archive = none ∧ ∃ p ∈ s.participations, p.archive = none) ∧
          s.command = none ∧ ∃ p ∈ s.participations, p.command = none)) ∧
      (Submission.check_archive s = .ok s ↔
        (¬(s.archive = none ∧ ∃ p ∈ s.participations, p.archive = none) ∧
          ¬(s.command = none ∧ ∃ p ∈ s.participations, p.command = none)))) ∧
    Submission.check_archive subRootBoth = .ok subRootBoth ∧
    Submission.check_archive subRootCmdOnly = .error archiveMsg := by
  refine ⟨?_, by decide, by decide⟩
  intro s
  have ha := exists_none_iff_not_all s.participations (fun p => p.archive)
  have hc := exists_none_iff_not_all s.participations (fun p => p.command)
  rw [Submission.check_archive]
  by_cases h1 : s.archive = none ∧ ¬ s.participations.all (fun p => p.archive.isSome)
  · rw [if_pos h1]
    have hA : s.archive = none ∧ ∃ p ∈ s.participations, p.archive = none :=
      ⟨h1.1, ha.mp h1.2⟩
    refine ⟨⟨fun _ => hA, fun _ => rfl⟩, ⟨?_, ?_⟩, ⟨?_, ?_⟩⟩
    · intro he
      rw [Except.error.injEq] at he
      exact absurd he (by decide)
    · intro hcc
      exact absurd hA hcc.1
    · intro he
      simp at he
    · intro hcc
      exact absurd hA hcc.1
  · rw [if_neg h1]
    have hnA : ¬(s.archive = none ∧ ∃ p ∈ s.participations, p.archive = none) := by
      intro hx
      exact h1 ⟨hx.1, ha.mpr hx.2⟩
    by_cases h2 : s.command = none ∧ ¬ s.participations.all (fun p => p.command.isSome)
    · rw [if_pos h2]
      have hC : s.command = none ∧ ∃ p ∈ s.participations, p.command = none :=
        ⟨h2.1, hc.mp h2.2⟩
      refine ⟨⟨?_, fun hx => absurd hx hnA⟩, ⟨fun _ => ⟨hnA, hC⟩, fun _ => rfl⟩, ⟨?_, ?_⟩⟩
      · intro he
        rw [Except.error.injEq] at he
        exact absurd he (by decide)
      · intro he
        simp at he
      · intro hx
        exact absurd hC hx.2
    · rw [if_neg h2]
      have hnC : ¬(s.command = none ∧ ∃ p ∈ s.participations, p.command = none) := by
        intro hx
        exact h2 ⟨hx.1, hc.mpr hx.2⟩
      refine ⟨⟨?_, fun hx => absurd hx hnA⟩, ⟨?_, fun hx => absurd hx.2 hnC⟩,
        ⟨fun _ => ⟨hnA, hnC⟩, fun _ => rfl⟩⟩
      · intro he
        simp at he
      · intro he
        simp at he

/-! ## Properties of the regex logic selector -/

lemma logic_mem_all : ∀ L : Logic, L ∈ Logic.all := by decide

/-- C6: on every pattern of the modelled regex fragment the selector returns (without
error) exactly the logics whose canonical name fully matches, listed in declaration
order (a filter of the declaration-order enumeration); full-match semantics are
anchored, so pattern `QF_BV` selects only `QF_BV` (none of its extensions), pattern
`QF_.*BV.*` selects the bitvector logics, and a pattern matching nothing yields the
empty list rather than an error. -/
theorem logics_from_regexp_char :
    (∀ (data : String) (r : Regex), compile data = some r →
      Logics.logics_from_regexp data =
        some (Logic.all.filter (fun L => fullmatch r (Logic.name L).toList)) ∧
      ∀ L : Logic,
        (L ∈ Logic.all.filter (fun L' => fullmatch r (Logic.name L').toList) ↔
          fullmatch r (Logic.name L).toList = true)) ∧
    Logics.logics_from_regexp "QF_BV" = some [Logic.QF_BV] ∧
    (∃ l, Logics.logics_from_regexp "QF_.*BV.*" = some l ∧ Logic.QF_ABV ∈ l ∧
      Logic.QF_AUFBV ∈ l ∧ Logic.QF_BV ∈ l ∧ Logic.QF_LIA ∉ l) ∧
    Logics.logics_from_regexp "ZZZ" = some [] := by
  refine ⟨?_, by decide,
    ⟨[Logic.QF_ABV, Logic.QF_ABVFP, Logic.QF_ABVFPLRA, Logic.QF_AUFBV, Logic.QF_AUFBVFP,
      Logic.QF_AUFBVLIA, Logic.QF_AUFBVNIA, Logic.QF_BV, Logic.QF_BVFP, Logic.QF_BVFPLRA,
      Logic.QF_BVLRA, Logic.QF_UFBV, Logic.QF_UFBVDT, Logic.QF_UFBVLIA],
      by decide, by decide, by decide, by decide, by decide⟩, by decide⟩
  intro data r h
  constructor
  · rw [Logics.logics_from_regexp, h]
    rfl
  · intro L
    rw [List.mem_filter]
    simp [logic_mem_all]

/-- Witness for C6 at a concrete pattern of the fragment. -/
theorem logics_from_regexp_char_witness :
    compile "QF_S.*" = some [(RAtom.ch 'Q', false), (RAtom.ch 'F', false),
      (RAtom.ch '_', false), (RAtom.ch 'S', false), (RAtom.dot, true)] ∧
    (Logics.logics_from_regexp "QF_S.*" =
      some (Logic.all.filter (fun L =>
        fullmatch [(RAtom.ch 'Q', false), (RAtom.ch 'F', false), (RAtom.ch '_', false),
          (RAtom.ch 'S', false), (RAtom.dot, true)] (Logic.name L).toList)) ∧
    ∀ L : Logic,
      (L ∈ Logic.all.filter (fun L' =>
          fullmatch [(RAtom.ch 'Q', false), (RAtom.ch 'F', false), (RAtom.ch '_', false),
            (RAtom.ch 'S', false), (RAtom.dot, true)] (Logic.name L').toList) ↔
        fullmatch [(RAtom.ch 'Q', false), (RAtom.ch 'F', false), (RAtom.ch '_', false),
          (RAtom.ch 'S', false), (RAtom.dot, true)] (Logic.name L).toList = true)) :=
  ⟨by decide,
    logics_from_regexp_char.1 "QF_S.*"
      [(RAtom.ch 'Q', false), (RAtom.ch 'F', false), (RAtom.ch '_', false),
        (RAtom.ch 'S', false), (RAtom.dot, true)] (by decide)⟩

/-! ## Properties of the benchmark identity codec -/

/-- A path segment that survives pathlib parsing unchanged: slash-free, nonempty, and
not the single-dot component. -/
def goodSeg (s : String) : Bool := segOk s && decide (s ≠ "") && decide (s ≠ ".")

lemma segOk_chars {s : String} (h : segOk s = true) : ∀ c ∈ s.toList, c ≠ '/' := by
  intro c hc
  have := List.all_eq_true.mp h c hc
  simpa using this

lemma goodSeg_parts {s : String} (h : goodSeg s = true) :
    segOk s = true ∧ s ≠ "" ∧ s ≠ "." := by
  simp only [goodSeg, Bool.and_eq_true, decide_eq_true_eq] at h
  exact ⟨h.1.1, h.1.2, h.2⟩

lemma splitSlash_no_slash : ∀ (cs : List Char), (∀ c ∈ cs, c ≠ '/') → splitSlash cs = [cs] := by
  intro cs
  induction cs with
  | nil => intro _; rfl
  | cons c cs ih =>
    intro h
    have hc : c ≠ '/' := h c (List.mem_cons_self c cs)
    have hcs := ih (fun x hx => h x (List.mem_cons_of_mem c hx))
    simp [splitSlash, hcs, hc]

lemma pySegParts_good {s : String} (h : goodSeg s = true) : pySegParts s = [s] := by
  obtain ⟨hok, hne, hnd⟩ := goodSeg_parts h
  rw [pySegParts, splitSlash_no_slash _ (segOk_chars hok)]
  simp [hne, hnd]

lemma startsSlash_good {s : String} (h : goodSeg s = true) : startsSlash s = false := by
  obtain ⟨hok, _, _⟩ := goodSeg_parts h
  rw [startsSlash]
  rcases hs : s.toList with _ | ⟨c, cs⟩
  · rfl
  · have hc : c ≠ '/' := segOk_chars hok c (by rw [hs]; exact List.mem_cons_self _ _)
    simp [hc]

lemma pyParts_foldl_good : ∀ (segs : List String) (acc : List String),
    (∀ s ∈ segs, goodSeg s = true) →
    segs.foldl (fun acc s =>
      if startsSlash s then "/" :: pySegParts s else acc ++ pySegParts s) acc =
      acc ++ segs := by
  intro segs
  induction segs with
  | nil => intro acc _; simp
  | cons s rest ih =>
    intro acc h
    have hs : goodSeg s = true := h s (List.mem_cons_self _ _)
    rw [List.foldl_cons]
    rw [if_neg (by rw [startsSlash_good hs]; exact Bool.false_ne_true)]
    rw [pySegParts_good hs, ih _ (fun x hx => h x (List.mem_cons_of_mem _ hx))]
    simp

lemma logic_name_good : ∀ lg : Logic, goodSeg (Logic.name lg) = true := by decide

lemma ofString_name : ∀ lg : Logic, Logic.ofString (Logic.name lg) = some lg := by decide

lemma pathParts_good (f : Smt2File) (hn : goodSeg f.name = true)
    (hf : ∀ s ∈ f.family, goodSeg s = true) :
    f.pathParts = (if f.incremental then "incremental" else "non-incremental") ::
      Logic.name f.logic :: (f.family ++ [f.name]) := by
  rw [Smt2File.pathParts, pyParts, pyParts_foldl_good _ [] ?_]
  · simp
  · intro s hs
    simp only [List.mem_append, List.mem_cons, List.not_mem_nil, or_false] at hs
    rcases hs with (h | h) | h
    · rcases h with h | h
      · subst h
        cases f.incremental <;> decide
      · subst h
        exact logic_name_good f.logic
    · exact hf s h
    · subst h
      exact hn

lemma getLastD_append_singleton (l : List String) (a d : String) :
    (l ++ [a]).getLastD d = a := by
  rw [List.getLastD_eq_getLast?, List.getLast?_concat]
  rfl

lemma dropLast_append_singleton (l : List String) (a : String) :
    (l ++ [a]).dropLast = l := by
  induction l with
  | nil => rfl
  | cons x xs ih =>
    rw [List.cons_append]
    cases hxs : xs ++ [a] with
    | nil => exact absurd hxs (by simp)
    | cons y ys => rw [List.dropLast_cons₂, ← hxs, ih]

lemma of_path_canonical (inc : Bool) (lg : Logic) (fam : List String) (nm : String)
    (hfam : ∀ s ∈ fam, segOk s = true) (hnm : segOk nm = true) :
    Smt2File.of_path ((if inc then "incremental" else "non-incremental") ::
      Logic.name lg :: (fam ++ [nm])) = .ok ⟨inc, lg, fam, nm⟩ := by
  have hlast : ((Logic.name lg :: (fam ++ [nm])).getLast?.getD "") = nm := by
    rw [show Logic.name lg :: (fam ++ [nm]) = (Logic.name lg :: fam) ++ [nm] from rfl,
      List.getLast?_concat]
    rfl
  have hdrop : (fam ++ [nm]).dropLast = fam := dropLast_append_singleton _ _
  have hall : fam.all segOk = true := List.all_eq_true.mpr (fun x hx => hfam x hx)
  cases inc <;>
    simp [Smt2File.of_path, ofString_name, hlast, hdrop, Smt2File.mk?, Smt2File.check,
      hnm, hall]

/-- C1 counterexample: the valid `Smt2File` with empty name (the validator only
forbids `/`) breaks the round-trip law as claimed: pathlib drops the empty final
segment, so decoding the encoded path yields a different file, and the path produced
by encoding that decoded file differs from the original path. -/
theorem smt2file_roundtrip_cex :
    Smt2File.valid ⟨false, Logic.QF_LIA, [], ""⟩ = true ∧
    Smt2File.of_path (Smt2File.pathParts ⟨false, Logic.QF_LIA, [], ""⟩) =
      .ok ⟨false, Logic.QF_LIA, [], "QF_LIA"⟩ ∧
    Smt2File.of_path (Smt2File.pathParts ⟨false, Logic.QF_LIA, [], ""⟩) ≠
      .ok ⟨false, Logic.QF_LIA, [], ""⟩ ∧
    Smt2File.pathParts ⟨false, Logic.QF_LIA, [], "QF_LIA"⟩ ≠
      Smt2File.pathParts ⟨false, Logic.QF_LIA, [], ""⟩ := by
  exact ⟨rfl, by decide, by decide, by decide⟩

/-- C1 (amended): the codec round-trip law holds for every valid `Smt2File` whose name
and family segments are moreover nonempty and distinct from `.` (the components pathlib
preserves): decoding the encoded path returns the file itself, and therefore encoding
is a left inverse on every path produced by encoding such a file. -/
theorem smt2file_roundtrip_good (f : Smt2File) (hn : goodSeg f.name = true)
    (hf : ∀ s ∈ f.family, goodSeg s = true) :
    Smt2File.of_path f.pathParts = .ok f ∧
    (Smt2File.of_path f.pathParts).map Smt2File.pathParts = .ok f.pathParts := by
  have hfam' : ∀ s ∈ f.family, segOk s = true := fun s hs => (goodSeg_parts (hf s hs)).1
  have hnm : segOk f.name = true := (goodSeg_parts hn).1
  have h2 : Smt2File.of_path f.pathParts = .ok f := by
    rw [pathParts_good f hn hf, of_path_canonical f.incremental f.logic f.family f.name
      hfam' hnm]
  exact ⟨h2, by rw [h2]; rfl⟩

/-- Witness for C1 at the concrete benchmark file of the specification. -/
theorem smt2file_roundtrip_good_witness :
    goodSeg "bench1.smt2" = true ∧
    (Smt2File.of_path (Smt2File.pathParts ⟨false, Logic.QF_LIA, ["sub", "dir"], "bench1.smt2"⟩) =
      .ok ⟨false, Logic.QF_LIA, ["sub", "dir"], "bench1.smt2"⟩ ∧
    (Smt2File.of_path
        (Smt2File.pathParts ⟨false, Logic.QF_LIA, ["sub", "dir"], "bench1.smt2"⟩)).map
        Smt2File.pathParts =
      .ok (Smt2File.pathParts ⟨false, Logic.QF_LIA, ["sub", "dir"], "bench1.smt2"⟩)) :=
  ⟨by decide,
    smt2file_roundtrip_good ⟨false, Logic.QF_LIA, ["sub", "dir"], "bench1.smt2"⟩
      (by decide) (by decide)⟩

/-- C8 counterexample: a valid `Smt2File` may carry the family segment `"."` (the
validator only forbids `/`), but pathlib collapses single-dot components, so the
encoded path does not contain the family segments in order. -/
theorem smt2file_encode_format_cex :
    Smt2File.valid ⟨false, Logic.QF_LIA, ["."], "x.smt2"⟩ = true ∧
    Smt2File.pathParts ⟨false, Logic.QF_LIA, ["."], "x.smt2"⟩ =
      ["non-incremental", "QF_LIA", "x.smt2"] ∧
    Smt2File.pathParts ⟨false, Logic.QF_LIA, ["."], "x.smt2"⟩ ≠
      ["non-incremental", "QF_LIA", ".", "x.smt2"] := by
  exact ⟨rfl, by decide, by decide⟩

/-- C8 (amended): for every valid `Smt2File` whose name and family segments are
nonempty and distinct from `.`, the encoded path is the incremental flag segment,
then the logic name, then the family segments in order, ending with the name; the
specification's concrete example encodes to the expected path and decodes back to the
identical value. -/
theorem smt2file_encode_format :
    (∀ f : Smt2File, goodSeg f.name = true → (∀ s ∈ f.family, goodSeg s = true) →
      f.pathParts = (if f.incremental then "incremental" else "non-incremental") ::
        Logic.name f.logic :: (f.family ++ [f.name])) ∧
    Smt2File.pathParts ⟨false, Logic.QF_LIA, ["sub", "dir"], "bench1.smt2"⟩ =
      ["non-incremental", "QF_LIA", "sub", "dir", "bench1.smt2"] ∧
    Smt2File.pathStr ⟨false, Logic.QF_LIA, ["sub", "dir"], "bench1.smt2"⟩ =
      "non-incremental/QF_LIA/sub/dir/bench1.smt2" ∧
    Smt2File.of_path ["non-incremental", "QF_LIA", "sub", "dir", "bench1.smt2"] =
      .ok ⟨false, Logic.QF_LIA, ["sub", "dir"], "bench1.smt2"⟩ :=
  ⟨pathParts_good, by decide, by decide, by decide⟩

/-- Witness for C8's general clause at the specification's concrete file. -/
theorem smt2file_encode_format_witness :
    goodSeg "bench1.smt2" = true ∧
    Smt2File.pathParts ⟨false, Logic.QF_LIA, ["sub", "dir"], "bench1.smt2"⟩ =
      (if (⟨false, Logic.QF_LIA, ["sub", "dir"], "bench1.smt2"⟩ : Smt2File).incremental
        then "incremental" else "non-incremental") ::
        Logic.name Logic.QF_LIA :: (["sub", "dir"] ++ ["bench1.smt2"]) :=
  ⟨by decide,
    smt2file_encode_format.1 ⟨false, Logic.QF_LIA, ["sub", "dir"], "bench1.smt2"⟩
      (by decide) (by decide)⟩

/-- C9: decoding by cases on the parts of the path.  For a multi-segment path of
slash-free segments: a first segment other than `incremental`/`non-incremental` is a
decode error; otherwise an unrecognized logic name in the second segment is a decode
error; otherwise decoding succeeds with the segments strictly between the second and
the last as the family and the last segment as the name.  A one-segment path whose
only segment is not a flag segment is likewise a decode error. -/
theorem smt2file_of_path_char :
    (∀ (p0 p1 : String) (rest2 : List String), segOk p1 = true →
      (∀ s ∈ rest2, segOk s = true) →
      Smt2File.of_path (p0 :: p1 :: rest2) =
        if p0 = "incremental" ∨ p0 = "non-incremental" then
          match Logic.ofString p1 with
          | some lg =>
            .ok ⟨decide (p0 = "incremental"), lg, rest2.dropLast, (p1 :: rest2).getLastD ""⟩
          | none => .error (p1 ++ " is not a valid Logic")
        else .error "Smt2File path should start with incremental or non-incremental") ∧
    (∀ p0 : String, ¬(p0 = "incremental" ∨ p0 = "non-incremental") →
      Smt2File.of_path [p0] =
        .error "IndexError: tuple index out of range" ∨
      Smt2File.of_path [p0] =
        .error "Smt2File path should start with incremental or non-incremental") := by
  constructor
  · intro p0 p1 rest2 h1 h2
    have hnm : segOk ((p1 :: rest2).getLast?.getD "") = true := by
      rw [← List.getLastD_eq_getLast?, List.getLastD_cons]
      have hmem := List.getLastD_mem_cons rest2 p1
      rw [List.mem_cons] at hmem
      rcases hmem with h | h
      · rw [h]; exact h1
      · exact h2 _ h
    have hfam : rest2.dropLast.all segOk = true :=
      List.all_eq_true.mpr (fun x hx => h2 x (List.mem_of_mem_dropLast hx))
    by_cases hi : p0 = "incremental"
    · subst hi
      cases hlg : Logic.ofString p1 with
      | none => simp [Smt2File.of_path, hlg]
      | some lg =>
        simp [Smt2File.of_path, hlg, Smt2File.mk?, Smt2File.check, hnm, hfam]
    · by_cases hn : p0 = "non-incremental"
      · subst hn
        cases hlg : Logic.ofString p1 with
        | none => simp [Smt2File.of_path, hlg]
        | some lg =>
          simp [Smt2File.of_path, hlg, Smt2File.mk?, Smt2File.check, hnm, hfam]
      · simp [Smt2File.of_path, hi, hn]
  · intro p0 hp
    by_cases hi : p0 = "incremental"
    · subst hi; left; rfl
    · by_cases hn : p0 = "non-incremental"
      · subst hn; left; rfl
      · right; simp [Smt2File.of_path, hi, hn]

/-- Witness for C9 at a concrete decodable path. -/
theorem smt2file_of_path_char_witness :
    segOk "QF_BV" = true ∧
    Smt2File.of_path ["incremental", "QF_BV", "a", "b.smt2"] =
      (if "incremental" = "incremental" ∨ "incremental" = "non-incremental" then
        match Logic.ofString "QF_BV" with
        | some lg =>
          .ok ⟨decide ("incremental" = "incremental"), lg,
            (["a", "b.smt2"] : List String).dropLast, ("QF_BV" :: ["a", "b.smt2"]).getLastD ""⟩
        | none => .error ("QF_BV" ++ " is not a valid Logic")
      else .error "Smt2File path should start with incremental or non-incremental") :=
  ⟨by decide,
    smt2file_of_path_char.1 "incremental" "QF_BV" ["a", "b.smt2"] (by decide) (by decide)⟩
